import Mathlib

/-!
Verification of the agent-orchestration examples (adk_examples).

The shallow embedding below models the Session / Event-Log data model and
the orchestration primitives (Sequential, Parallel, Loop, Rewind, the
tool-confirmation protocol).  Definitions translated from the repository's
own Python files keep their source names (`exit_loop`, `set_state_color`,
`dataFetcherStep` for `DataFetcherAgent._run_async_impl`, the HITL helper
functions, the `validation_loop` configuration).  The orchestration engine
itself (the ADK library) is not part of the repository's sources; the
definitions for it are modelled from the specification and say so in their
doc comments.
-/

/-- Session State: a mapping from string keys to string values, embedded as
an association list where an insertion prepends and a lookup takes the
first (most recent) binding. -/
abbrev SessionState : Type := List (String × String)

/-- Write one key (Python `state[k] = v`): prepend the binding. -/
def stateSet (st : SessionState) (k v : String) : SessionState :=
  (k, v) :: st

/-- Read one key (Python `state.get(k)`): first binding wins; returns an
explicit missing marker (`none`, Python `None`) when the key is absent. -/
def stateGet (st : SessionState) (k : String) : Option String :=
  match st with
  | [] => none
  | (k', v) :: rest => if k = k' then some v else stateGet rest k

/-- The kinds of Events the spec distinguishes. -/
inductive EvKind where
  | textOutput
  | stateWrite
  | toolCallRequest
  | toolCallResult
  | confirmationRequest
  | confirmationResponse
  | controlSignal
  deriving DecidableEq

/-- A function call part of an event's content (genai `types.FunctionCall`
as the repository reads it: a `name` and an optional `id`). -/
structure FunctionCall where
  name : String
  id : Option String
  deriving DecidableEq

/-- A function response part (genai `types.FunctionResponse` as the
repository builds it: `id`, `name`, and the `confirmed` boolean carried in
the `response` payload). -/
structure FunctionResponse where
  id : String
  name : String
  response_confirmed : Bool
  deriving DecidableEq

/-- One content part (genai `types.Part`): optional text, optional
function call, optional function response. -/
structure ContentPart where
  text : Option String := none
  function_call : Option FunctionCall := none
  function_response : Option FunctionResponse := none
  deriving DecidableEq

/-- Event content (genai `types.Content`): a role and a list of parts. -/
structure Content where
  role : String
  parts : List ContentPart
  deriving DecidableEq

/-- An Event of the Event Log.  `state_delta` carries the state writes the
event performs (empty for events that do not write state); `seq` is the
globally serialized sequence number assigned at append time. -/
structure Event where
  invocation_id : String := ""
  author : String := ""
  kind : EvKind := EvKind.textOutput
  state_delta : List (String × String) := []
  text : Option String := none
  content : Option Content := none
  seq : Nat := 0
  deriving DecidableEq

/-- Apply a state delta (a list of key/value writes) in order. -/
def applyDelta (st : SessionState) : List (String × String) → SessionState
  | [] => st
  | (k, v) :: rest => applyDelta (stateSet st k v) rest

/-- Apply one Event to the state: exactly its `state_delta` writes. -/
def applyEvent (st : SessionState) (e : Event) : SessionState :=
  applyDelta st e.state_delta

/-- Fold a list of Events over a starting state, in log order. -/
def foldEvents (st : SessionState) : List Event → SessionState
  | [] => st
  | e :: rest => foldEvents (applyEvent st e) rest

/-- A Session: the projected state plus the append-only Event Log. -/
structure Session where
  state : SessionState := []
  events : List Event := []
  deriving DecidableEq

/-- The empty session: empty state and empty Event Log. -/
def emptySession : Session := {}

/-- Modelled from the spec: the only sanctioned mutation entry point —
append an Event to the log (assigning it the next sequence number, the
current log length) and update the state projection by applying the
event's state delta. -/
def appendEvent (s : Session) (e : Event) : Session :=
  let e' : Event := { e with seq := s.events.length }
  { state := applyEvent s.state e', events := s.events ++ [e'] }

/-- Modelled from the spec: a session built purely by appending Events to
the empty session (state writes are events, nothing else mutates state). -/
def mkSession (evs : List Event) : Session :=
  evs.foldl appendEvent emptySession

/-- `DataFetcherAgent._run_async_impl` state effect (seq_agent_01, lines
150–163): it mutates `ctx.session.state["search_results"]` directly (not
through an Event) and then yields an Event whose content is only the
result text — the yielded Event carries no state delta. -/
def dataFetcherStep (ctx_session : Session) (invocation_id : String)
    (result : String) : Session :=
  let s1 : Session :=
    { ctx_session with
      state := stateSet ctx_session.state "search_results" result }
  appendEvent s1
    { invocation_id := invocation_id
      author := "data_fetcher"
      kind := EvKind.textOutput
      text := some result }

/-- `set_state_color` (rewind_agent/agent.py, lines 9–12): writes the
session-level `color` state key and returns a status dict. -/
def set_state_color (color : String) (tool_context_state : SessionState) :
    SessionState × List (String × String) :=
  (stateSet tool_context_state "color" color,
   [("status", "ok"), ("color", color)])

/-- Modelled from the spec: locate the first Event carrying the given
`invocation_id` and return the strict prefix of the log before it
(`none` when no Event carries that id — UnknownRewindTarget). -/
def takeBeforeInv (inv : String) : List Event → Option (List Event)
  | [] => none
  | e :: rest =>
      if e.invocation_id = inv then some []
      else
        match takeBeforeInv inv rest with
        | some pre => some (e :: pre)
        | none => none

/-- Modelled from the spec (§4.7, `Runner.rewind_async` is not in the
repository): truncate the Event Log to exclude the first Event with the
given invocation id and everything after it, and recompute Session State
by folding the remaining prefix in order.  Fails (`none`) when the id
never occurs in the log. -/
def rewindSession (s : Session) (before_invocation_id : String) :
    Option Session :=
  match takeBeforeInv before_invocation_id s.events with
  | some pre => some { state := foldEvents [] pre, events := pre }
  | none => none

/-- The Session observed after a rewind call: the rewound session on
success; on UnknownRewindTarget the call fails and the Session is left
unmodified (spec §7). -/
def rewindOrKeep (s : Session) (before_invocation_id : String) : Session :=
  (rewindSession s before_invocation_id).getD s

/-- One turn of the rewind_agent demo: the user asks to set the color, the
agent calls `set_state_color` (its state write is recorded as the tool
event's state delta), and the agent answers.  All three Events share the
turn's invocation id. -/
def colorInvocation (inv : String) (userText : String) (color : String) :
    List Event :=
  [ { invocation_id := inv, author := "user", kind := EvKind.textOutput,
      text := some userText },
    { invocation_id := inv, author := "color_state_agent",
      kind := EvKind.stateWrite,
      state_delta := [("color", color)] },
    { invocation_id := inv, author := "color_state_agent",
      kind := EvKind.textOutput, text := some ("The color is now " ++ color) } ]

/-- The session produced by `rewind_agent/main.py`: three invocations set
`color` to red (inv0), then orange (inv1), then blue (inv2); `main` then
rewinds before inv2 (the blue invocation) expecting red. -/
def colorSession : Session :=
  mkSession
    (colorInvocation "inv0" "set state color to red" "red"
      ++ colorInvocation "inv1" "set state color to orange" "orange"
      ++ colorInvocation "inv2" "update state color to blue" "blue")

/-- What a child of a Loop signalled during one iteration's Sequential
sub-run: nothing, an escalate control-signal, or a fatal failure. -/
inductive ChildSignal where
  | normal
  | escalate
  | fatal
  deriving DecidableEq

/-- Terminal outcome of a Loop composite, carrying how many iterations
actually ran. -/
inductive LoopOutcome where
  | escalated (iterations : Nat)
  | budgetExhausted (iterations : Nat)
  | failed (iterations : Nat)
  deriving DecidableEq

/-- How many iterations a finished Loop ran. -/
def iterationsRun : LoopOutcome → Nat
  | LoopOutcome.escalated n => n
  | LoopOutcome.budgetExhausted n => n
  | LoopOutcome.failed n => n

/-- Whether a Loop outcome is a fatal error (BudgetExhausted and Escalated
are non-fatal terminal outcomes). -/
def isFatalOutcome : LoopOutcome → Bool
  | LoopOutcome.failed _ => true
  | _ => false

/-- Modelled from the spec (§4.5, `LoopAgent` is not in the repository):
one step per iteration.  `sig i` abstracts the Sequential sub-run of
iteration `i` (0-based): it reports whether some child escalated or failed
fatally.  After a normal iteration the count increments; when it reaches
the budget the loop stops in BudgetExhausted. -/
def loopGo (sig : Nat → ChildSignal) : Nat → Nat → LoopOutcome
  | count, 0 => LoopOutcome.budgetExhausted count
  | count, remaining + 1 =>
      match sig count with
      | ChildSignal.fatal => LoopOutcome.failed (count + 1)
      | ChildSignal.escalate => LoopOutcome.escalated (count + 1)
      | ChildSignal.normal =>
          if remaining = 0 then LoopOutcome.budgetExhausted (count + 1)
          else loopGo sig (count + 1) remaining

/-- Modelled from the spec: run a Loop composite with budget
`max_iterations` and per-iteration child signals `sig`. -/
def runLoop (max_iterations : Nat) (sig : Nat → ChildSignal) : LoopOutcome :=
  loopGo sig 0 max_iterations

/-- The escalation flag of a ToolContext (`tool_context.actions`). -/
structure ToolActions where
  escalate : Bool := false
  deriving DecidableEq

/-- The ToolContext a tool receives: the session state view, the actions
record, and the calling agent's name. -/
structure ToolContext where
  state : SessionState := []
  actions : ToolActions := {}
  agent_name : String := ""
  deriving DecidableEq

/-- `exit_loop` (loop_agent_01/agent.py lines 61–75, identically
nested_agent/agent.py lines 66–70): sets
`tool_context.actions.escalate = True` and returns an empty dict; it
touches nothing else — in particular it performs no state write. -/
def exit_loop (tool_context : ToolContext) :
    ToolContext × List (String × String) :=
  ({ tool_context with
      actions := { tool_context.actions with escalate := true } },
   [])

/-- The control-signal the Loop composite reads off a child's context
after the iteration's Sequential sub-run completes (spec §4.5: the
escalate flag is inspected after the sub-run, decoupled from state). -/
def signalOf (tc : ToolContext) : ChildSignal :=
  if tc.actions.escalate then ChildSignal.escalate else ChildSignal.normal

/-- Configuration of a LoopAgent as the repository instantiates it. -/
structure LoopAgentConfig where
  name : String
  sub_agents : List String
  max_iterations : Nat

/-- `validation_loop` (loop_agent_01/agent.py lines 190–194, identically
nested_agent/agent.py lines 218–222): Critic → Refiner with
`max_iterations = 6`. -/
def validation_loop : LoopAgentConfig :=
  { name := "SQLValidationLoop"
    sub_agents := ["SQLCritic", "SQLRefiner"]
    max_iterations := 6 }

/-- A Leaf agent as the claims exercise it: a name, an optional
`output_key`, and the (opaque) final output text its model call produces
for the run under consideration. -/
structure LeafSpec where
  name : String
  output_key : Option String
  output : String

/-- Modelled from the spec (§4.2): the Events one Leaf run appends — a
state-write Event for its `output_key` (when set) carrying the final
output, and a text-output Event. -/
def leafEvents (l : LeafSpec) : List Event :=
  (match l.output_key with
   | some k =>
      [{ author := l.name, kind := EvKind.stateWrite,
         state_delta := [(k, l.output)] }]
   | none => []) ++
  [{ author := l.name, kind := EvKind.textOutput, text := some l.output }]

/-- Modelled from the spec: run one Leaf against a Session by appending
its Events through the sanctioned append operation. -/
def runLeaf (s : Session) (l : LeafSpec) : Session :=
  (leafEvents l).foldl appendEvent s

/-- Modelled from the spec (§4.3, `SequentialAgent` is not in the
repository): execute children strictly in list order; child n+1 starts
only from the Session child n left behind. -/
def runSequential (s : Session) (children : List LeafSpec) : Session :=
  children.foldl runLeaf s

/-- Modelled from the spec (§4.4/§4.6, `ParallelAgent` is not in the
repository): `Merge3 q1 q2 q3 log` says `log` is one possible globally
serialized append order of the three concurrent branches' Event streams —
an arbitrary interleaving that preserves each branch's internal order and
drains every branch (the fan-in barrier). -/
inductive Merge3 :
    List Event → List Event → List Event → List Event → Prop where
  | nil : Merge3 [] [] [] []
  | cons1 {e : Event} {q1 q2 q3 log : List Event} :
      Merge3 q1 q2 q3 log → Merge3 (e :: q1) q2 q3 (e :: log)
  | cons2 {e : Event} {q1 q2 q3 log : List Event} :
      Merge3 q1 q2 q3 log → Merge3 q1 (e :: q2) q3 (e :: log)
  | cons3 {e : Event} {q1 q2 q3 log : List Event} :
      Merge3 q1 q2 q3 log → Merge3 q1 q2 (e :: q3) (e :: log)

/-- Sequence numbers as `appendEvent` assigns them: the events re-stamped
with consecutive numbers starting at `start`. -/
def assignSeq : List Event → Nat → List Event
  | [], _ => []
  | e :: rest, start => { e with seq := start } :: assignSeq rest (start + 1)

/-- A tool definition as the repository configures it: a name and the
`require_confirmation` flag of `FunctionTool`. -/
structure ToolDef where
  name : String
  require_confirmation : Bool

/-- The confirmation-gated tool of hitl_example/agent.py (lines 79–83):
`FunctionTool(refund_order, require_confirmation=True)`. -/
def refund_order_tool : ToolDef :=
  { name := "refund_order", require_confirmation := true }

/-- Status of an invocation after the Runner consumed it. -/
inductive InvStatus where
  | completed
  | suspended (request_id : String)
  | protocolError
  deriving DecidableEq

/-- The confirmation-request Event ADK emits before a confirmation-gated
tool runs: a function call named `adk_request_confirmation` carrying the
request id. -/
def confirmationRequestEvent (rid : String) : Event :=
  let fc : FunctionCall := { name := "adk_request_confirmation", id := some rid }
  let p : ContentPart := { function_call := some fc }
  { author := "root_agent", kind := EvKind.confirmationRequest,
    content := some { role := "model", parts := [p] } }

/-- Modelled from the spec (§4.2, the `FunctionTool` confirmation gate is
not in the repository): invoking a Leaf whose tool requires confirmation
appends exactly one confirmation-request Event and suspends there; with
no confirmation gate the tool runs synchronously (request, result, then
the final text). -/
def invokeLeafWithTool (tool : ToolDef) (rid : String) :
    List Event × InvStatus :=
  if tool.require_confirmation then
    ([confirmationRequestEvent rid], InvStatus.suspended rid)
  else
    ([{ kind := EvKind.toolCallRequest },
      { kind := EvKind.toolCallResult },
      { kind := EvKind.textOutput, text := some "done" }],
     InvStatus.completed)

/-- Modelled from the spec (§6): read the confirmation response carried by
a resume message — the first function-response part named
`adk_request_confirmation`, giving its id and the `confirmed` boolean. -/
def extractConfirmationResponse (c : Content) : Option (String × Bool) :=
  c.parts.findSome? fun p =>
    match p.function_response with
    | some fr =>
        if fr.name = "adk_request_confirmation" then
          some (fr.id, fr.response_confirmed)
        else none
    | none => none

/-- Modelled from the spec (§4.2/§4.6): resume a suspended invocation.
A response whose id does not match the pending request is a protocol
error.  On approval the tool executes (tool-call-result Event) and the
Leaf produces output; on denial no tool execution occurs and the Leaf
produces output text reflecting the denial. -/
def resumeLeaf (pending_request_id : String) (resp : Content) :
    List Event × InvStatus :=
  match extractConfirmationResponse resp with
  | some (rid, confirmed) =>
      if rid = pending_request_id then
        if confirmed then
          ([{ kind := EvKind.toolCallResult },
            { kind := EvKind.textOutput,
              text := some "The refund was processed." }],
           InvStatus.completed)
        else
          ([{ kind := EvKind.textOutput,
              text := some "The refund was not approved." }],
           InvStatus.completed)
      else ([], InvStatus.protocolError)
  | none => ([], InvStatus.protocolError)

/-- Count the Events of a given kind. -/
def countKind (evs : List Event) (k : EvKind) : Nat :=
  evs.countP fun e => e.kind = k

/-- `_extract_confirmation_call` (hitl_example/agent.py lines 89–113):
scan the event's content parts for a function call named
`adk_request_confirmation` that carries an id; return (id, name). -/
def extract_confirmation_call (event : Event) : Option (String × String) :=
  match event.content with
  | none => none
  | some c =>
      c.parts.findSome? fun p =>
        match p.function_call with
        | some fc =>
            if fc.name = "adk_request_confirmation" then
              match fc.id with
              | some function_call_id => some (function_call_id, fc.name)
              | none => none
            else none
        | none => none

/-- `_make_confirmation_response` (hitl_example/agent.py lines 116–136):
build the user Content whose single part carries the function response
with the matching id, the fixed name, and the `confirmed` boolean. -/
def make_confirmation_response (function_call_id : String)
    (confirmed : Bool) : Content :=
  let fr : FunctionResponse :=
    { id := function_call_id,
      name := "adk_request_confirmation",
      response_confirmed := confirmed }
  let p : ContentPart := { function_response := some fr }
  { role := "user", parts := [p] }

/-- Result of a Python expression that either yields a string or raises
`AttributeError`. -/
inductive FetchResult where
  | ok (s : String)
  | attributeError
  deriving DecidableEq

/-- Python `str.strip()`: drop whitespace from both ends. -/
def pyStrip (s : String) : String :=
  String.mk
    (((s.data.dropWhile Char.isWhitespace).reverse.dropWhile
        Char.isWhitespace).reverse)

/-- The read `ctx.session.state.get("category").strip()` performed by
`DataFetcherAgent._run_async_impl` (seq_agent_01/agent.py line 139):
`.get` returns the explicit missing marker `None` for an absent key, on
which `.strip()` raises `AttributeError`. -/
def dataFetcherReadCategory (st : SessionState) : FetchResult :=
  match stateGet st "category" with
  | some v => FetchResult.ok (pyStrip v)
  | none => FetchResult.attributeError

/-- The seeding `main` performs before running the sequential pipeline
(seq_agent_01/agent.py lines 234–236): every referenced key is set to the
empty string so reads and placeholder injection never fail. -/
def seqAgentSeededState : SessionState :=
  stateSet (stateSet (stateSet [] "category" "") "search_results" "")
    "final_response" ""

/-- The two-leaf Sequential scenario of the spec:
`Sequential([LeafA(output_key=k1), LeafB(output_key=k2)])` run once
against an empty session. -/
def twoLeafPipeline (n1 n2 k1 k2 o1 o2 : String) : Session :=
  runSequential emptySession
    [{ name := n1, output_key := some k1, output := o1 },
     { name := n2, output_key := some k2, output := o2 }]

/-- The `classifier` Leaf of the customer_service pipeline
(seq_agent_01/agent.py lines 96–110, `output_key="category"`); the output
text stands for one opaque model answer. -/
def classifierLeaf : LeafSpec :=
  { name := "classifier", output_key := some "category",
    output := "support" }

/-- The `data_fetcher` Leaf of the customer_service pipeline
(seq_agent_01/agent.py lines 123–167, a custom agent with no
`output_key`); the output text stands for its yielded result text. -/
def dataFetcherLeaf : LeafSpec :=
  { name := "data_fetcher", output_key := none, output := "result" }

/-- The `responder` Leaf of the customer_service pipeline
(seq_agent_01/agent.py lines 180–190, `output_key="final_response"`). -/
def responderLeaf : LeafSpec :=
  { name := "responder", output_key := some "final_response",
    output := "answer" }

/-- The ordered child list of `customer_service_agent`
(seq_agent_01/agent.py lines 202–209). -/
def customer_service_children : List LeafSpec :=
  [classifierLeaf, dataFetcherLeaf, responderLeaf]

/-- One concrete serialized append order for the three
parallel_agent_01 reviewers (all three state writes first, then the three
text outputs): an interleaving of the three branches' Event streams. -/
def c7demoLog : List Event :=
  [ { author := "SecurityAuditor", kind := EvKind.stateWrite,
      state_delta := [("security_report", "S")] },
    { author := "StyleEnforcer", kind := EvKind.stateWrite,
      state_delta := [("style_report", "T")] },
    { author := "PerformanceAnalyst", kind := EvKind.stateWrite,
      state_delta := [("performance_report", "P")] },
    { author := "SecurityAuditor", kind := EvKind.textOutput,
      text := some "S" },
    { author := "StyleEnforcer", kind := EvKind.textOutput,
      text := some "T" },
    { author := "PerformanceAnalyst", kind := EvKind.textOutput,
      text := some "P" } ]

theorem applyEvent_seq (st : SessionState) (e : Event) (n : Nat) :
    applyEvent st { e with seq := n } = applyEvent st e := rfl

theorem foldEvents_append (st : SessionState) (l₁ l₂ : List Event) :
    foldEvents st (l₁ ++ l₂) = foldEvents (foldEvents st l₁) l₂ := by
  induction l₁ generalizing st with
  | nil => rfl
  | cons e rest ih => simp [foldEvents, ih]

theorem appendEvent_invariant (s : Session) (e : Event)
    (h : s.state = foldEvents [] s.events) :
    (appendEvent s e).state = foldEvents [] (appendEvent s e).events := by
  simp [appendEvent, foldEvents_append, ← h, foldEvents]

theorem mkSession_invariant_aux (evs : List Event) (s : Session)
    (h : s.state = foldEvents [] s.events) :
    (evs.foldl appendEvent s).state
      = foldEvents [] (evs.foldl appendEvent s).events := by
  induction evs generalizing s with
  | nil => exact h
  | cons e rest ih =>
      exact ih (appendEvent s e) (appendEvent_invariant s e h)

theorem foldl_appendEvent_state (evs : List Event) (s : Session) :
    (evs.foldl appendEvent s).state = foldEvents s.state evs := by
  induction evs generalizing s with
  | nil => rfl
  | cons e rest ih =>
      simp only [List.foldl_cons, ih, foldEvents]
      rfl

theorem foldl_appendEvent_events (evs : List Event) (s : Session) :
    (evs.foldl appendEvent s).events
      = s.events ++ assignSeq evs s.events.length := by
  induction evs generalizing s with
  | nil => simp [assignSeq]
  | cons e rest ih =>
      simp only [List.foldl_cons, assignSeq]
      rw [ih]
      simp [appendEvent, List.append_assoc]

theorem assignSeq_length (evs : List Event) (n : Nat) :
    (assignSeq evs n).length = evs.length := by
  induction evs generalizing n with
  | nil => rfl
  | cons e rest ih => simp [assignSeq, ih]

theorem assignSeq_map_seq (evs : List Event) (n : Nat) :
    (assignSeq evs n).map (fun e => e.seq) = List.range' n evs.length := by
  induction evs generalizing n with
  | nil => rfl
  | cons e rest ih =>
      simp [assignSeq, ih, List.range'_succ n rest.length 1]

theorem mkSession_state (evs : List Event) :
    (mkSession evs).state = foldEvents [] evs :=
  foldl_appendEvent_state evs emptySession

theorem mkSession_events (evs : List Event) :
    (mkSession evs).events = assignSeq evs 0 := by
  simpa [mkSession, emptySession] using
    foldl_appendEvent_events evs emptySession

theorem mkSession_gapless (evs : List Event) :
    (mkSession evs).events.map (fun e => e.seq)
      = List.range (mkSession evs).events.length := by
  rw [mkSession_events, assignSeq_map_seq, assignSeq_length,
    List.range_eq_range']

theorem stateGet_applyDelta_not_mem (delta : List (String × String))
    (st : SessionState) (k : String) (h : ∀ p ∈ delta, p.1 ≠ k) :
    stateGet (applyDelta st delta) k = stateGet st k := by
  induction delta generalizing st with
  | nil => rfl
  | cons p rest ih =>
      obtain ⟨k', v⟩ := p
      have hk : k' ≠ k := h (k', v) (List.mem_cons_self _ _)
      rw [show applyDelta st ((k', v) :: rest)
            = applyDelta (stateSet st k' v) rest from rfl,
        ih (stateSet st k' v) (fun q hq => h q (List.mem_cons_of_mem _ hq))]
      have hk' : k ≠ k' := fun h' => hk h'.symm
      simp [stateSet, stateGet, hk']

theorem stateGet_foldEvents_some (log : List Event) (st : SessionState)
    (k v : String)
    (hall : ∀ e ∈ log,
      (∀ p ∈ e.state_delta, p.1 ≠ k) ∨ e.state_delta = [(k, v)])
    (hex : (∃ e ∈ log, e.state_delta = [(k, v)]) ∨ stateGet st k = some v) :
    stateGet (foldEvents st log) k = some v := by
  induction log generalizing st with
  | nil =>
      rcases hex with ⟨e, he, _⟩ | h
      · exact absurd he (List.not_mem_nil e)
      · exact h
  | cons e rest ih =>
      rcases hall e (List.mem_cons_self _ _) with havoid | hwrite
      · have hstep : stateGet (applyEvent st e) k = stateGet st k :=
          stateGet_applyDelta_not_mem e.state_delta st k havoid
        refine ih (applyEvent st e)
          (fun e' he' => hall e' (List.mem_cons_of_mem _ he')) ?_
        rcases hex with ⟨e', he', hd⟩ | hst
        · rcases List.mem_cons.mp he' with rfl | hmem
          · exact absurd rfl
              (havoid (k, v) (hd ▸ List.mem_cons_self _ _))
          · exact Or.inl ⟨e', hmem, hd⟩
        · exact Or.inr (hstep.trans hst)
      · refine ih (applyEvent st e)
          (fun e' he' => hall e' (List.mem_cons_of_mem _ he')) (Or.inr ?_)
        simp [applyEvent, hwrite, applyDelta, stateSet, stateGet]

theorem merge3_subset {q1 q2 q3 log : List Event}
    (h : Merge3 q1 q2 q3 log) :
    ∀ e ∈ log, e ∈ q1 ∨ e ∈ q2 ∨ e ∈ q3 := by
  induction h with
  | nil => intro e he; exact absurd he (List.not_mem_nil e)
  | cons1 _ ih =>
      intro e he
      rcases List.mem_cons.mp he with rfl | hm
      · exact Or.inl (List.mem_cons_self _ _)
      · rcases ih e hm with h1 | h2 | h3
        · exact Or.inl (List.mem_cons_of_mem _ h1)
        · exact Or.inr (Or.inl h2)
        · exact Or.inr (Or.inr h3)
  | cons2 _ ih =>
      intro e he
      rcases List.mem_cons.mp he with rfl | hm
      · exact Or.inr (Or.inl (List.mem_cons_self _ _))
      · rcases ih e hm with h1 | h2 | h3
        · exact Or.inl h1
        · exact Or.inr (Or.inl (List.mem_cons_of_mem _ h2))
        · exact Or.inr (Or.inr h3)
  | cons3 _ ih =>
      intro e he
      rcases List.mem_cons.mp he with rfl | hm
      · exact Or.inr (Or.inr (List.mem_cons_self _ _))
      · rcases ih e hm with h1 | h2 | h3
        · exact Or.inl h1
        · exact Or.inr (Or.inl h2)
        · exact Or.inr (Or.inr (List.mem_cons_of_mem _ h3))

theorem merge3_mem1 {q1 q2 q3 log : List Event} (h : Merge3 q1 q2 q3 log) :
    ∀ e ∈ q1, e ∈ log := by
  induction h with
  | nil => intro e he; exact absurd he (List.not_mem_nil e)
  | cons1 _ ih =>
      intro e he
      rcases List.mem_cons.mp he with rfl | hm
      · exact List.mem_cons_self _ _
      · exact List.mem_cons_of_mem _ (ih e hm)
  | cons2 _ ih => intro e he; exact List.mem_cons_of_mem _ (ih e he)
  | cons3 _ ih => intro e he; exact List.mem_cons_of_mem _ (ih e he)

theorem merge3_mem2 {q1 q2 q3 log : List Event} (h : Merge3 q1 q2 q3 log) :
    ∀ e ∈ q2, e ∈ log := by
  induction h with
  | nil => intro e he; exact absurd he (List.not_mem_nil e)
  | cons2 _ ih =>
      intro e he
      rcases List.mem_cons.mp he with rfl | hm
      · exact List.mem_cons_self _ _
      · exact List.mem_cons_of_mem _ (ih e hm)
  | cons1 _ ih => intro e he; exact List.mem_cons_of_mem _ (ih e he)
  | cons3 _ ih => intro e he; exact List.mem_cons_of_mem _ (ih e he)

theorem merge3_mem3 {q1 q2 q3 log : List Event} (h : Merge3 q1 q2 q3 log) :
    ∀ e ∈ q3, e ∈ log := by
  induction h with
  | nil => intro e he; exact absurd he (List.not_mem_nil e)
  | cons3 _ ih =>
      intro e he
      rcases List.mem_cons.mp he with rfl | hm
      · exact List.mem_cons_self _ _
      · exact List.mem_cons_of_mem _ (ih e hm)
  | cons1 _ ih => intro e he; exact List.mem_cons_of_mem _ (ih e he)
  | cons2 _ ih => intro e he; exact List.mem_cons_of_mem _ (ih e he)

theorem loopGo_no_escalate (sig : Nat → ChildSignal)
    (h : ∀ i, sig i = ChildSignal.normal) :
    ∀ rem count, loopGo sig count (rem + 1)
      = LoopOutcome.budgetExhausted (count + (rem + 1)) := by
  intro rem
  induction rem with
  | zero => intro count; simp [loopGo, h count]
  | succ m ih =>
      intro count
      have hstep : loopGo sig count (m + 1 + 1) = loopGo sig (count + 1) (m + 1) := by
        simp [loopGo, h count]
      rw [hstep, ih (count + 1)]
      congr 1
      omega

theorem takeBeforeInv_mem (inv : String) (l pre : List Event)
    (h : takeBeforeInv inv l = some pre) :
    ∀ e ∈ pre, e.invocation_id ≠ inv := by
  induction l generalizing pre with
  | nil => simp [takeBeforeInv] at h
  | cons a rest ih =>
      by_cases ha : a.invocation_id = inv
      · simp [takeBeforeInv, ha] at h
        subst h
        intro e he
        exact absurd he (List.not_mem_nil e)
      · simp only [takeBeforeInv, if_neg ha] at h
        cases htail : takeBeforeInv inv rest with
        | none => rw [htail] at h; simp at h
        | some pre' =>
            rw [htail] at h
            simp at h
            subst h
            intro e he
            rcases List.mem_cons.mp he with rfl | hm
            · exact ha
            · exact ih pre' htail e hm

theorem takeBeforeInv_none (inv : String) (l : List Event)
    (h : ∀ e ∈ l, e.invocation_id ≠ inv) :
    takeBeforeInv inv l = none := by
  induction l with
  | nil => rfl
  | cons a rest ih =>
      have ha : a.invocation_id ≠ inv := h a (List.mem_cons_self _ _)
      simp only [takeBeforeInv, if_neg ha,
        ih (fun e he => h e (List.mem_cons_of_mem _ he))]

/-- C1 (amended): Session State equals the fold of the Event Log for every
session whose state is mutated only through the sanctioned append of
state-write Events; the repository's `DataFetcherAgent` and entry scripts
mutate state directly without appending a state-write Event, so the
invariant fails for the sessions they touch (see the counterexample). -/
theorem c1_replay (evs : List Event) :
    (mkSession evs).state = foldEvents [] (mkSession evs).events :=
  mkSession_invariant_aux evs emptySession rfl

/-- C1 counterexample: after `DataFetcherAgent._run_async_impl` runs (it
writes `search_results` directly into `ctx.session.state` and yields a
text-only Event with no state delta), the Session State no longer equals
the fold of the Event Log, so replay does not reproduce it. -/
theorem c1_counterexample :
    (dataFetcherStep emptySession "inv-1" "result").state
      ≠ foldEvents []
          (dataFetcherStep emptySession "inv-1" "result").events := by
  decide

/-- C2: evaluating the modelled rewind on the session that
`rewind_agent/main.py` builds (color set to red by inv0, orange by inv1,
blue by inv2) at the id the script actually passes (inv2, the blue
invocation) leaves `color = "orange"`, not the `"red"` the claim and the
script's own comment expect; `"red"` results only when rewinding before
inv1. -/
theorem c2_code_evaluation :
    stateGet (rewindOrKeep colorSession "inv2").state "color"
      = some "orange" ∧
    stateGet (rewindOrKeep colorSession "inv1").state "color"
      = some "red" ∧
    (some "orange" : Option String) ≠ some "red" :=
  ⟨by decide, by decide, by decide⟩

/-- C3: a Loop with `max_iterations = N` whose children never escalate
runs exactly N iterations, never more, and terminates in BudgetExhausted,
a non-fatal terminal outcome. -/
theorem c3_loop_budget (sig : Nat → ChildSignal) (N : Nat)
    (hsig : ∀ i, sig i = ChildSignal.normal) (hN : 1 ≤ N) :
    runLoop N sig = LoopOutcome.budgetExhausted N ∧
    iterationsRun (runLoop N sig) = N ∧
    isFatalOutcome (runLoop N sig) = false := by
  obtain ⟨m, rfl⟩ : ∃ m, N = m + 1 := ⟨N - 1, by omega⟩
  have h0 : runLoop (m + 1) sig = LoopOutcome.budgetExhausted (m + 1) := by
    simpa [runLoop] using loopGo_no_escalate sig hsig m 0
  exact ⟨h0, by rw [h0]; rfl, by rw [h0]; rfl⟩

theorem c3_witness :
    1 ≤ validation_loop.max_iterations ∧
    runLoop validation_loop.max_iterations (fun _ => ChildSignal.normal)
      = LoopOutcome.budgetExhausted validation_loop.max_iterations :=
  ⟨by decide,
   (c3_loop_budget (fun _ => ChildSignal.normal)
     validation_loop.max_iterations (fun _ => rfl) (by decide)).1⟩

/-- C4: a Loop whose first iteration escalates terminates in the Escalated
terminal success state after exactly one iteration, regardless of the
budget N. -/
theorem c4_loop_escalate (sig : Nat → ChildSignal) (N : Nat)
    (hsig : sig 0 = ChildSignal.escalate) (hN : 1 ≤ N) :
    runLoop N sig = LoopOutcome.escalated 1 ∧
    iterationsRun (runLoop N sig) = 1 ∧
    isFatalOutcome (runLoop N sig) = false := by
  obtain ⟨m, rfl⟩ : ∃ m, N = m + 1 := ⟨N - 1, by omega⟩
  have h0 : runLoop (m + 1) sig = LoopOutcome.escalated 1 := by
    simp [runLoop, loopGo, hsig]
  exact ⟨h0, by rw [h0]; rfl, by rw [h0]; rfl⟩

theorem c4_witness :
    1 ≤ validation_loop.max_iterations ∧
    runLoop validation_loop.max_iterations (fun _ => ChildSignal.escalate)
      = LoopOutcome.escalated 1 :=
  ⟨by decide,
   (c4_loop_escalate (fun _ => ChildSignal.escalate)
     validation_loop.max_iterations rfl (by decide)).1⟩

/-- C5: `exit_loop` performs no write to Session State (every key reads
the same before and after), returns an empty record, and its only effect
is the escalation signal the Loop composite inspects after the
iteration. -/
theorem c5_exit_loop (tool_context : ToolContext) (k : String) :
    (exit_loop tool_context).1.state = tool_context.state ∧
    stateGet (exit_loop tool_context).1.state k
      = stateGet tool_context.state k ∧
    (exit_loop tool_context).2 = [] ∧
    (exit_loop tool_context).1.actions.escalate = true ∧
    signalOf (exit_loop tool_context).1 = ChildSignal.escalate :=
  ⟨rfl, rfl, rfl, rfl, rfl⟩

/-- C8: for a rewind target that occurs in the log, rewinding twice yields
the same resulting Session State as rewinding once (the second call hits
UnknownRewindTarget and leaves the Session unmodified). -/
theorem c8_rewind_idempotent (s : Session) (T : String)
    (h : (rewindSession s T).isSome = true) :
    rewindOrKeep (rewindOrKeep s T) T = rewindOrKeep s T := by
  cases htake : takeBeforeInv T s.events with
  | none => simp [rewindSession, htake] at h
  | some pre =>
      have hs' : rewindSession s T
          = some { state := foldEvents [] pre, events := pre } := by
        simp [rewindSession, htake]
      have hpre : takeBeforeInv T pre = none :=
        takeBeforeInv_none T pre (takeBeforeInv_mem T s.events pre htake)
      have h2 : rewindSession
          { state := foldEvents [] pre, events := pre } T = none := by
        simp [rewindSession, hpre]
      simp [rewindOrKeep, hs', h2]

theorem c8_witness :
    (rewindSession colorSession "inv2").isSome = true ∧
    rewindOrKeep (rewindOrKeep colorSession "inv2") "inv2"
      = rewindOrKeep colorSession "inv2" :=
  ⟨by decide, c8_rewind_idempotent colorSession "inv2" (by decide)⟩

/-- C10 counterexample: `DataFetcherAgent`'s read of the absent
`category` key is a fatal `AttributeError` (`None.strip()`), not a
non-fatal substitution of an empty placeholder value. -/
theorem c10_counterexample :
    dataFetcherReadCategory [] = FetchResult.attributeError ∧
    FetchResult.attributeError ≠ FetchResult.ok "" :=
  ⟨rfl, by decide⟩

/-- C10 (amended): the store-level read of an absent key yields the
explicit missing marker (`none`); the Leaf-level behaviour in this code is
fatal on a missing key (`AttributeError` on `None.strip()`), and the
examples obtain non-fatal reads by seeding every referenced key with an
empty string, under which the read succeeds. -/
theorem c10_missing_key (st : SessionState)
    (h : stateGet st "category" = none) :
    dataFetcherReadCategory st = FetchResult.attributeError ∧
    dataFetcherReadCategory seqAgentSeededState = FetchResult.ok "" ∧
    stateGet seqAgentSeededState "category" = some "" := by
  refine ⟨?_, rfl, rfl⟩
  simp [dataFetcherReadCategory, h]

theorem c10_witness :
    stateGet ([] : SessionState) "category" = none ∧
    dataFetcherReadCategory [] = FetchResult.attributeError :=
  ⟨rfl, (c10_missing_key [] rfl).1⟩

theorem assignSeq_append (l1 l2 : List Event) (n : Nat) :
    assignSeq (l1 ++ l2) n
      = assignSeq l1 n ++ assignSeq l2 (n + l1.length) := by
  induction l1 generalizing n with
  | nil => simp [assignSeq]
  | cons e rest ih =>
      have harith : n + 1 + rest.length = n + (rest.length + 1) := by omega
      show ({ e with seq := n } : Event) :: assignSeq (rest ++ l2) (n + 1)
          = { e with seq := n } ::
            (assignSeq rest (n + 1) ++ assignSeq l2 (n + (rest.length + 1)))
      rw [ih, harith]

theorem mem_assignSeq (e : Event) (l : List Event) (n : Nat)
    (h : e ∈ assignSeq l n) :
    (∃ e2 ∈ l, e.author = e2.author) ∧ n ≤ e.seq ∧ e.seq < n + l.length := by
  induction l generalizing n with
  | nil => simp [assignSeq] at h
  | cons a rest ih =>
      simp only [assignSeq, List.mem_cons] at h
      rcases h with rfl | h
      · refine ⟨⟨a, List.mem_cons_self _ _, rfl⟩, ?_, ?_⟩ <;>
          simp [List.length_cons]
      · obtain ⟨⟨e2, he2, ha⟩, h1, h2⟩ := ih (n + 1) h
        exact ⟨⟨e2, List.mem_cons_of_mem _ he2, ha⟩, by omega,
          by simp only [List.length_cons]; omega⟩

theorem leafEvents_author (c : LeafSpec) (e : Event)
    (h : e ∈ leafEvents c) : e.author = c.name := by
  cases hoc : c.output_key <;> simp [leafEvents, hoc] at h
  · rw [h]
  · rcases h with rfl | rfl <;> rfl

theorem flatMap_leafEvents_author (cs : List LeafSpec) (e : Event)
    (h : e ∈ cs.flatMap leafEvents) : ∃ c ∈ cs, e.author = c.name := by
  induction cs with
  | nil => simp at h
  | cons c rest ih =>
      rw [List.flatMap_cons] at h
      rcases List.mem_append.mp h with h | h
      · exact ⟨c, List.mem_cons_self _ _, leafEvents_author c e h⟩
      · obtain ⟨c2, hc2, ha⟩ := ih h
        exact ⟨c2, List.mem_cons_of_mem _ hc2, ha⟩

theorem runSequential_eq (children : List LeafSpec) (s : Session) :
    runSequential s children
      = (children.flatMap leafEvents).foldl appendEvent s := by
  induction children generalizing s with
  | nil => rfl
  | cons c rest ih =>
      calc runSequential s (c :: rest)
          = runSequential (runLeaf s c) rest := rfl
        _ = (rest.flatMap leafEvents).foldl appendEvent (runLeaf s c) :=
            ih (runLeaf s c)
        _ = ((c :: rest).flatMap leafEvents).foldl appendEvent s := by
            rw [List.flatMap_cons, List.foldl_append]
            rfl

theorem runSequential_events (children : List LeafSpec) :
    (runSequential emptySession children).events
      = assignSeq (children.flatMap leafEvents) 0 := by
  rw [runSequential_eq]
  simpa [emptySession] using
    foldl_appendEvent_events (children.flatMap leafEvents) emptySession

/-- C6: for every Sequential composite run once over any ordered child
list, each child's Events are appended only after all Events of every
earlier child (child n+1 begins after child n completes), so whenever
child `a` precedes child `b` in the list (child names distinct, as the
spec requires of one root tree), every Event authored by `a` has a
strictly smaller sequence number than every Event authored by `b`; in
particular for Sequential([LeafA(output_key=k1), LeafB(output_key=k2)])
the final state contains both k1 and k2. -/
theorem c6_sequential
    (children pre mid post : List LeafSpec) (a b : LeafSpec)
    (n1 n2 k1 k2 o1 o2 : String)
    (hsplit : children = pre ++ a :: (mid ++ b :: post))
    (hnodup : (children.map LeafSpec.name).Nodup)
    (hk : k1 ≠ k2) :
    (∀ e1 ∈ (runSequential emptySession children).events,
      ∀ e2 ∈ (runSequential emptySession children).events,
        e1.author = a.name → e2.author = b.name → e1.seq < e2.seq) ∧
    stateGet (twoLeafPipeline n1 n2 k1 k2 o1 o2).state k1 = some o1 ∧
    stateGet (twoLeafPipeline n1 n2 k1 k2 o1 o2).state k2 = some o2 := by
  subst hsplit
  rw [List.map_append, List.map_cons, List.map_append, List.map_cons]
    at hnodup
  rcases List.nodup_append.mp hnodup with ⟨-, hrest, hdisjP⟩
  rcases List.nodup_cons.mp hrest with ⟨haNot, hrest2⟩
  rcases List.nodup_append.mp hrest2 with ⟨-, hbq, hdisjM⟩
  rcases List.nodup_cons.mp hbq with ⟨hbNot, -⟩
  have hPreA : ∀ c ∈ pre, c.name ≠ a.name := fun c hc heq =>
    hdisjP (List.mem_map_of_mem _ hc)
      (by rw [heq]; exact List.mem_cons_self _ _)
  have hPreB : ∀ c ∈ pre, c.name ≠ b.name := fun c hc heq =>
    hdisjP (List.mem_map_of_mem _ hc)
      (by
        rw [heq]
        exact List.mem_cons_of_mem _
          (List.mem_append_right _ (List.mem_cons_self _ _)))
  have hMidA : ∀ c ∈ mid, c.name ≠ a.name := fun c hc heq =>
    haNot (by
      rw [← heq]
      exact List.mem_append_left _ (List.mem_map_of_mem _ hc))
  have hBA : b.name ≠ a.name := fun heq =>
    haNot (by
      rw [← heq]
      exact List.mem_append_right _ (List.mem_cons_self _ _))
  have hPostA : ∀ c ∈ post, c.name ≠ a.name := fun c hc heq =>
    haNot (by
      rw [← heq]
      exact List.mem_append_right _
        (List.mem_cons_of_mem _ (List.mem_map_of_mem _ hc)))
  have hMidB : ∀ c ∈ mid, c.name ≠ b.name := fun c hc heq =>
    hdisjM (List.mem_map_of_mem _ hc)
      (by rw [heq]; exact List.mem_cons_self _ _)
  have hAB : a.name ≠ b.name := fun heq => hBA heq.symm
  have hPostB : ∀ c ∈ post, c.name ≠ b.name := fun c hc heq =>
    hbNot (by rw [← heq]; exact List.mem_map_of_mem _ hc)
  refine ⟨?_, ?_, ?_⟩
  · intro e1 he1 e2 he2 h1 h2
    rw [runSequential_events, List.flatMap_append, List.flatMap_cons,
      List.flatMap_append, List.flatMap_cons, assignSeq_append,
      assignSeq_append, assignSeq_append, assignSeq_append] at he1 he2
    simp only [List.mem_append] at he1 he2
    have hb1 : (pre.flatMap leafEvents).length ≤ e1.seq ∧
        e1.seq < (pre.flatMap leafEvents).length
          + (leafEvents a).length := by
      rcases he1 with h | h | h | h | h
      · obtain ⟨⟨e0, he0, hauth⟩, -, -⟩ := mem_assignSeq _ _ _ h
        obtain ⟨c, hc, hcn⟩ := flatMap_leafEvents_author _ _ he0
        exact absurd (hcn.symm.trans (hauth.symm.trans h1)) (hPreA c hc)
      · obtain ⟨-, hlo, hhi⟩ := mem_assignSeq _ _ _ h
        omega
      · obtain ⟨⟨e0, he0, hauth⟩, -, -⟩ := mem_assignSeq _ _ _ h
        obtain ⟨c, hc, hcn⟩ := flatMap_leafEvents_author _ _ he0
        exact absurd (hcn.symm.trans (hauth.symm.trans h1)) (hMidA c hc)
      · obtain ⟨⟨e0, he0, hauth⟩, -, -⟩ := mem_assignSeq _ _ _ h
        have := leafEvents_author b e0 he0
        exact absurd (this.symm.trans (hauth.symm.trans h1)) hBA
      · obtain ⟨⟨e0, he0, hauth⟩, -, -⟩ := mem_assignSeq _ _ _ h
        obtain ⟨c, hc, hcn⟩ := flatMap_leafEvents_author _ _ he0
        exact absurd (hcn.symm.trans (hauth.symm.trans h1)) (hPostA c hc)
    have hb2 : (pre.flatMap leafEvents).length + (leafEvents a).length
        + (mid.flatMap leafEvents).length ≤ e2.seq := by
      rcases he2 with h | h | h | h | h
      · obtain ⟨⟨e0, he0, hauth⟩, -, -⟩ := mem_assignSeq _ _ _ h
        obtain ⟨c, hc, hcn⟩ := flatMap_leafEvents_author _ _ he0
        exact absurd (hcn.symm.trans (hauth.symm.trans h2)) (hPreB c hc)
      · obtain ⟨⟨e0, he0, hauth⟩, -, -⟩ := mem_assignSeq _ _ _ h
        have := leafEvents_author a e0 he0
        exact absurd (this.symm.trans (hauth.symm.trans h2)) hAB
      · obtain ⟨⟨e0, he0, hauth⟩, -, -⟩ := mem_assignSeq _ _ _ h
        obtain ⟨c, hc, hcn⟩ := flatMap_leafEvents_author _ _ he0
        exact absurd (hcn.symm.trans (hauth.symm.trans h2)) (hMidB c hc)
      · obtain ⟨-, hlo, hhi⟩ := mem_assignSeq _ _ _ h
        omega
      · obtain ⟨-, hlo, hhi⟩ := mem_assignSeq _ _ _ h
        omega
    omega
  · have hst : (twoLeafPipeline n1 n2 k1 k2 o1 o2).state
        = [(k2, o2), (k1, o1)] := rfl
    rw [hst]; simp [stateGet, hk]
  · have hst : (twoLeafPipeline n1 n2 k1 k2 o1 o2).state
        = [(k2, o2), (k1, o1)] := rfl
    rw [hst]; simp [stateGet]

theorem c6_witness :
    stateGet (twoLeafPipeline "LeafA" "LeafB" "k1" "k2" "out A" "out B").state
      "k1" = some "out A" ∧
    stateGet (twoLeafPipeline "LeafA" "LeafB" "k1" "k2" "out A" "out B").state
      "k2" = some "out B" :=
  ⟨(c6_sequential customer_service_children [] [dataFetcherLeaf] []
      classifierLeaf responderLeaf
      "LeafA" "LeafB" "k1" "k2" "out A" "out B"
      rfl (by decide) (by decide)).2.1,
   (c6_sequential customer_service_children [] [dataFetcherLeaf] []
      classifierLeaf responderLeaf
      "LeafA" "LeafB" "k1" "k2" "out A" "out B"
      rfl (by decide) (by decide)).2.2⟩

/-- C7: a Parallel composite of three children with pairwise distinct
output keys — for every globally serialized interleaving of the three
branches' Event streams (each branch drained: the fan-in barrier), the
final Session State holds all three keys with each child's respective
output, and the sequence numbers of the resulting log are the gapless
strictly increasing 0,1,2,…. -/
theorem c7_parallel (n1 n2 n3 k1 k2 k3 o1 o2 o3 : String)
    (log : List Event)
    (h12 : k1 ≠ k2) (h13 : k1 ≠ k3) (h23 : k2 ≠ k3)
    (hm : Merge3
        (leafEvents { name := n1, output_key := some k1, output := o1 })
        (leafEvents { name := n2, output_key := some k2, output := o2 })
        (leafEvents { name := n3, output_key := some k3, output := o3 })
        log) :
    stateGet (mkSession log).state k1 = some o1 ∧
    stateGet (mkSession log).state k2 = some o2 ∧
    stateGet (mkSession log).state k3 = some o3 ∧
    (mkSession log).events.map (fun e => e.seq)
      = List.range (mkSession log).events.length := by
  have h21 : k2 ≠ k1 := fun h => h12 h.symm
  have h31 : k3 ≠ k1 := fun h => h13 h.symm
  have h32 : k3 ≠ k2 := fun h => h23 h.symm
  refine ⟨?_, ?_, ?_, mkSession_gapless log⟩
  · rw [mkSession_state]
    refine stateGet_foldEvents_some log [] k1 o1 ?_ (Or.inl ?_)
    · intro e he
      rcases merge3_subset hm e he with h | h | h <;>
        simp only [leafEvents, List.cons_append, List.nil_append,
          List.mem_cons, List.not_mem_nil, or_false] at h <;>
        rcases h with rfl | rfl <;> simp_all
    · exact ⟨_, merge3_mem1 hm _ (List.mem_cons_self _ _), rfl⟩
  · rw [mkSession_state]
    refine stateGet_foldEvents_some log [] k2 o2 ?_ (Or.inl ?_)
    · intro e he
      rcases merge3_subset hm e he with h | h | h <;>
        simp only [leafEvents, List.cons_append, List.nil_append,
          List.mem_cons, List.not_mem_nil, or_false] at h <;>
        rcases h with rfl | rfl <;> simp_all
    · exact ⟨_, merge3_mem2 hm _ (List.mem_cons_self _ _), rfl⟩
  · rw [mkSession_state]
    refine stateGet_foldEvents_some log [] k3 o3 ?_ (Or.inl ?_)
    · intro e he
      rcases merge3_subset hm e he with h | h | h <;>
        simp only [leafEvents, List.cons_append, List.nil_append,
          List.mem_cons, List.not_mem_nil, or_false] at h <;>
        rcases h with rfl | rfl <;> simp_all
    · exact ⟨_, merge3_mem3 hm _ (List.mem_cons_self _ _), rfl⟩

theorem c7_witness :
    stateGet (mkSession c7demoLog).state "security_report" = some "S" ∧
    stateGet (mkSession c7demoLog).state "style_report" = some "T" ∧
    stateGet (mkSession c7demoLog).state "performance_report" = some "P" ∧
    (mkSession c7demoLog).events.map (fun e => e.seq)
      = List.range (mkSession c7demoLog).events.length :=
  c7_parallel "SecurityAuditor" "StyleEnforcer" "PerformanceAnalyst"
    "security_report" "style_report" "performance_report" "S" "T" "P"
    c7demoLog (by decide) (by decide) (by decide)
    (Merge3.cons1 (Merge3.cons2 (Merge3.cons3
      (Merge3.cons1 (Merge3.cons2 (Merge3.cons3 Merge3.nil))))))

/-- C9: invoking the Leaf whose tool requires confirmation produces
exactly one confirmation-request Event and zero tool-call-result Events
and suspends there (the request id is readable by the repository's
extraction helper); resuming with the repository's confirmation-response
payload and approved=false produces no tool-call-result Event but one
text-output Event; with approved=true it produces a tool-call-result
Event followed by a text-output Event. -/
theorem c9_confirmation (tool : ToolDef) (rid : String)
    (h : tool.require_confirmation = true) :
    (countKind (invokeLeafWithTool tool rid).1
        EvKind.confirmationRequest = 1 ∧
     countKind (invokeLeafWithTool tool rid).1 EvKind.toolCallResult = 0 ∧
     (invokeLeafWithTool tool rid).2 = InvStatus.suspended rid) ∧
    extract_confirmation_call (confirmationRequestEvent rid)
      = some (rid, "adk_request_confirmation") ∧
    (countKind (resumeLeaf rid (make_confirmation_response rid false)).1
        EvKind.toolCallResult = 0 ∧
     countKind (resumeLeaf rid (make_confirmation_response rid false)).1
        EvKind.textOutput = 1 ∧
     (resumeLeaf rid (make_confirmation_response rid false)).2
        = InvStatus.completed) ∧
    ((resumeLeaf rid (make_confirmation_response rid true)).1.map
        (fun e => e.kind)
      = [EvKind.toolCallResult, EvKind.textOutput] ∧
     (resumeLeaf rid (make_confirmation_response rid true)).2
        = InvStatus.completed) := by
  have hinv : invokeLeafWithTool tool rid
      = ([confirmationRequestEvent rid], InvStatus.suspended rid) := by
    simp [invokeLeafWithTool, h]
  have hfalse : resumeLeaf rid (make_confirmation_response rid false)
      = ([{ kind := EvKind.textOutput,
            text := some "The refund was not approved." }],
         InvStatus.completed) := by
    simp [resumeLeaf, make_confirmation_response,
      extractConfirmationResponse, List.findSome?]
  have htrue : resumeLeaf rid (make_confirmation_response rid true)
      = ([{ kind := EvKind.toolCallResult },
          { kind := EvKind.textOutput,
            text := some "The refund was processed." }],
         InvStatus.completed) := by
    simp [resumeLeaf, make_confirmation_response,
      extractConfirmationResponse, List.findSome?]
  refine ⟨?_, rfl, ?_, ?_⟩
  · rw [hinv]
    exact ⟨rfl, rfl, rfl⟩
  · rw [hfalse]
    exact ⟨rfl, rfl, rfl⟩
  · rw [htrue]
    exact ⟨rfl, rfl⟩

theorem c9_witness :
    refund_order_tool.require_confirmation = true ∧
    countKind (invokeLeafWithTool refund_order_tool "call-1").1
      EvKind.confirmationRequest = 1 ∧
    countKind (invokeLeafWithTool refund_order_tool "call-1").1
      EvKind.toolCallResult = 0 ∧
    extract_confirmation_call (confirmationRequestEvent "call-1")
      = some ("call-1", "adk_request_confirmation") :=
  ⟨rfl,
   (c9_confirmation refund_order_tool "call-1" rfl).1.1,
   (c9_confirmation refund_order_tool "call-1" rfl).1.2.1,
   (c9_confirmation refund_order_tool "call-1" rfl).2.1⟩
